import Mathlib

/-!
Shallow embedding of the failsafe-go core execution engine
(`executor.go` and `timeout/timeoutexecutor.go`), together with
theorems settling the specification claims about it.

Conventions of the embedding:
* Go values of type `error` become `Option GoError` (`none` = nil).
* Machine `int` becomes `Int` where sign or the `math.MaxInt` sentinel
  matters, `Nat` for loop counters.
* Pointer-typed results (`*ExecutionResult[R]`) held in an atomic slot
  become `Option (ExecutionResult R)` (`none` = nil pointer).
* Go methods that mutate their receiver become functions returning the
  receiver's new state together with the returned value.
* Code of the repository that lives outside the two source files
  (execution.go, the spi/internal packages) is modelled from the spec;
  each such definition carries a doc comment saying so.
-/

namespace FailsafeGo

/-- Go `error` values: a base error created by `errors.New`, or a
wrapping error (as produced by `fmt.Errorf` with `%w`) holding an inner
error. -/
inductive GoError where
  | base : String → GoError
  | wrap : String → GoError → GoError
deriving DecidableEq, Repr

/-- Go `errors.Is(err, target)`: `err` equals `target`, or some error in
`err`'s unwrap chain equals `target`. -/
def errorsIs : GoError → GoError → Bool
  | e, t =>
    e = t ||
      match e with
      | .wrap _ inner => errorsIs inner t
      | .base _ => false

/-- The specification-level relation "`e` is, or wraps, `t`". -/
inductive IsOrWraps : GoError → GoError → Prop
  | refl (e : GoError) : IsOrWraps e e
  | wrapStep (m : String) (e t : GoError) : IsOrWraps e t → IsOrWraps (.wrap m e) t

/-- Modelled from the spec: `ErrTimeoutExceeded` is a public sentinel
error, identity-comparable under is/wraps semantics (its defining
`errors.New` call lives in the timeout package outside `src/`). -/
def ErrTimeoutExceeded : GoError := .base "timeout exceeded"

/-- `common.ExecutionResult[R]` / `failsafe.ExecutionResult[R]`: one
attempt's outcome plus classification bits. -/
structure ExecutionResult (R : Type) where
  result : R
  err : Option GoError
  complete : Bool
  success : Bool
  successAll : Bool
deriving DecidableEq, Repr

/-- `math.MaxInt` on a 64-bit platform, used by `executor.execute` as the
"canceled from outside every policy" sentinel index. -/
def maxInt : Int := 2 ^ 63 - 1

/-! ## Executor construction (`executor.go`)

`executor[R]` is a struct holding a policy list, an optional context and
one listener slot per kind.  Policies, contexts and listeners are opaque
to the engine, so they are type parameters here.  A Go method that
mutates its receiver is modelled as a function returning the pair
(receiver state after the call, returned executor value). -/

/-- The `executor[R]` struct: policy list, optional context, one
listener slot per kind. -/
structure ExecutorState (P C L : Type) where
  policies : List P
  ctx : Option C
  onComplete : Option L
  onSuccess : Option L
  onFailure : Option L
deriving DecidableEq, Repr

/-- `failsafe.With(outerPolicy, policies...)`: prepends the outer policy
to the variadic list and returns a fresh executor with only the policy
list populated. -/
def With (P C L : Type) (outerPolicy : P) (policies : List P) : ExecutorState P C L :=
  { policies := outerPolicy :: policies
    ctx := none
    onComplete := none
    onSuccess := none
    onFailure := none }

/-- `executor.Compose(innerPolicy)`: appends to `e.policies` **on the
receiver** and returns the receiver itself.  First component: receiver
state after the call; second: the returned executor. -/
def Compose {P C L : Type} (e : ExecutorState P C L) (innerPolicy : P) :
    ExecutorState P C L × ExecutorState P C L :=
  let e' := { e with policies := e.policies ++ [innerPolicy] }
  (e', e')

/-- `executor.WithContext(ctx)`: copies the receiver (`c := *e`), sets
the context on the copy, returns the copy.  The receiver is unchanged. -/
def WithContext {P C L : Type} (e : ExecutorState P C L) (ctx : C) :
    ExecutorState P C L × ExecutorState P C L :=
  (e, { e with ctx := some ctx })

/-- `executor.OnComplete(listener)`: stores the listener on the receiver
and returns the receiver itself. -/
def OnComplete {P C L : Type} (e : ExecutorState P C L) (l : L) :
    ExecutorState P C L × ExecutorState P C L :=
  let e' := { e with onComplete := some l }
  (e', e')

/-- `executor.OnSuccess(listener)`: stores the listener on the receiver
and returns the receiver itself. -/
def OnSuccess {P C L : Type} (e : ExecutorState P C L) (l : L) :
    ExecutorState P C L × ExecutorState P C L :=
  let e' := { e with onSuccess := some l }
  (e', e')

/-- `executor.OnFailure(listener)`: stores the listener on the receiver
and returns the receiver itself. -/
def OnFailure {P C L : Type} (e : ExecutorState P C L) (l : L) :
    ExecutorState P C L × ExecutorState P C L :=
  let e' := { e with onFailure := some l }
  (e', e')

/-! ## Listener dispatch (`executor.execute`, lines 205-212) -/

/-- Which listener fired, in order. -/
inductive ListenerKind where
  | success
  | failure
  | complete
deriving DecidableEq, Repr

/-- The listener-dispatch tail of `executor.execute`:
`if e.onSuccess != nil && er.SuccessAll { onSuccess } else if
e.onFailure != nil && !er.SuccessAll { onFailure }` followed by
`if e.onComplete != nil { onComplete }`.  Registration of each listener
is a `Bool` (slot non-nil); the result is the ordered list of listeners
actually invoked. -/
def dispatchListeners (hasSuccess hasFailure hasComplete successAll : Bool) :
    List ListenerKind :=
  (if hasSuccess && successAll then [ListenerKind.success]
   else if hasFailure && !successAll then [ListenerKind.failure]
   else []) ++
  (if hasComplete then [ListenerKind.complete] else [])

/-! ## Policy composition loop (`executor.execute`, lines 162-165)

```go
for i, policyIndex := len(e.policies)-1, 0; i >= 0; i, policyIndex = i-1, policyIndex+1 {
    outerFn = e.policies[i].ToExecutor(policyIndex).Apply(outerFn)
}
```

The loop both threads the composed function and fixes which policy index
each `ToExecutor` call receives.  `apply i pk f` stands for
`e.policies[i].ToExecutor(pk).Apply(f)`; the trace records every
`(i, policyIndex)` pair passed, in call order. -/

/-- Composed function so far, plus the `(list position, policyIndex)`
arguments of every `ToExecutor` call made so far, in call order. -/
structure ComposeTrace (F : Type) where
  fn : F
  calls : List (Nat × Nat)
deriving Repr

/-- One loop iteration per recursive step: the first argument is `i + 1`
(so the current loop variable is `i`, counting down to `0`), the second
is `policyIndex` (counting up from `0`). -/
def composeLoopAux {F : Type} (apply : Nat → Nat → F → F) :
    Nat → Nat → ComposeTrace F → ComposeTrace F
  | 0, _, t => t
  | i + 1, pk, t =>
      composeLoopAux apply i (pk + 1)
        { fn := apply i pk t.fn, calls := t.calls ++ [(i, pk)] }

/-- The whole loop for an `n`-policy executor starting from the user
attempt wrapper `f0`: `i` starts at `n - 1`, `policyIndex` at `0`. -/
def composeLoop {F : Type} (apply : Nat → Nat → F → F) (n : Nat) (f0 : F) :
    ComposeTrace F :=
  composeLoopAux apply n 0 { fn := f0, calls := [] }

/-! ## Cancellation state (modelled from the spec)

`execution.go` is not among the source files; `Cancel` and
`IsCanceledForPolicy` are modelled from §4.2 of the spec.  Fields of the
execution relevant to cancellation: `canceledIndex` (an `int`, `-1` =
not canceled), the adopted `canceledResult`, and whether the
cancellation channel has been closed. -/

/-- Cancellation-related fields of the execution: `canceledIndex` starts
at `-1` (`executor.execute` line 168), `canceledResult` empty, channel
open. -/
structure CancelState (R : Type) where
  canceledIndex : Int
  canceledResult : Option (ExecutionResult R)
  channelClosed : Bool
deriving DecidableEq, Repr

/-- The fresh cancellation state built by `executor.execute`:
`canceledIndex = -1`, no adopted result, channel open. -/
def freshCancelState (R : Type) : CancelState R :=
  { canceledIndex := -1, canceledResult := none, channelClosed := false }

/-- Modelled from the spec: `Cancel(policyIndex, result)` is idempotent
and atomic — if already canceled (`canceledIndex ≠ -1`) return `false`;
otherwise store `canceledIndex = policyIndex` and `canceledResult =
result`, close the cancellation channel, and return `true`. -/
def Cancel {R : Type} (s : CancelState R) (policyIndex : Int)
    (r : ExecutionResult R) : CancelState R × Bool :=
  if s.canceledIndex ≠ -1 then (s, false)
  else ({ canceledIndex := policyIndex, canceledResult := some r,
          channelClosed := true }, true)

/-- Modelled from the spec: `IsCanceledForPolicy(k)` returns `true` iff
`canceledIndex ≥ 0 ∧ canceledIndex ≤ k` (the spec's §4.2 formula,
verbatim). -/
def IsCanceledForPolicy {R : Type} (s : CancelState R) (k : Int) : Bool :=
  0 ≤ s.canceledIndex && s.canceledIndex ≤ k

/-- The corrected check, matching the index convention the composition
loop in `executor.go` actually uses (policy index `0` innermost, larger
indices more outer, `math.MaxInt` for the external context):
cancellation at layer `k` or outside it means `canceledIndex ≥ k`. -/
def IsCanceledForPolicyFixed {R : Type} (s : CancelState R) (k : Int) : Bool :=
  0 ≤ s.canceledIndex && k ≤ s.canceledIndex

/-! ## Context-cancellation watcher (`executor.execute`, lines 180-195)

```go
go func() {
    select {
    case <-ctx.Done():
        execInternal.Cancel(math.MaxInt, &ExecutionResult[R]{
            Err:      ctx.Err(),
            Complete: true,
        })
    case <-executionDone:
    }
}()
```

The `select` outcome is a parameter: `ctxDoneFirst = true` means the
context's done channel fired first. -/

/-- The struct literal `&ExecutionResult[R]{Err: ctx.Err(), Complete:
true}`: unmentioned fields take Go zero values. -/
def contextCancelResult (R : Type) [Inhabited R] (ctxErr : GoError) :
    ExecutionResult R :=
  { result := default, err := some ctxErr, complete := true,
    success := false, successAll := false }

/-- The watcher goroutine body.  Returns the cancellation state after
the body runs and the `(policyIndex, result)` argument pair of the
`Cancel` call it made, if any. -/
def watcherBody {R : Type} [Inhabited R] (ctxErr : GoError)
    (ctxDoneFirst : Bool) (s : CancelState R) :
    CancelState R × Option (Int × ExecutionResult R) :=
  if ctxDoneFirst then
    let r := contextCancelResult R ctxErr
    ((Cancel s maxInt r).1, some (maxInt, r))
  else (s, none)

/-! ## The user-attempt wrapper (`executor.execute`, lines 148-160)

```go
outerFn := func(execInternal *ExecutionInternal[R]) *ExecutionResult[R] {
    result, err := fn(execInternal.Execution)
    er := &ExecutionResult[R]{Result: result, Err: err,
        Complete: true, Success: true, SuccessAll: true}
    execInternal.Executions++
    r := execInternal.Record(er)
    return r
}
```
-/

/-- The execution-state fields the attempt wrapper touches: the
`Executions` counter and the last result/error stored by `Record`. -/
structure ExecState (R : Type) where
  executions : Nat
  lastResult : Option R
  lastError : Option GoError
deriving DecidableEq, Repr

/-- Modelled from the spec: `Record(result)` stores the result as
`LastResult`/`LastError` (execution.go is outside `src/`).  It does not
touch `Executions`. -/
def Record {R : Type} (s : ExecState R) (er : ExecutionResult R) :
    ExecState R × ExecutionResult R :=
  ({ s with lastResult := some er.result, lastError := er.err }, er)

/-- The `outerFn` closure built by `executor.execute`: invoke the user
function, wrap its `(result, err)` with `Complete = Success = SuccessAll
= true`, increment `Executions`, then `Record`.  The user function may
read the execution state. -/
def outerFn {R : Type} (fn : ExecState R → R × Option GoError)
    (s : ExecState R) : ExecState R × ExecutionResult R :=
  let (result, err) := fn s
  let er : ExecutionResult R :=
    { result := result, err := err, complete := true, success := true,
      successAll := true }
  let s1 := { s with executions := s.executions + 1 }
  Record s1 er

/-- `n` invocations of the attempt wrapper in sequence (as a retrying
pipeline would make them), returning the final execution state.  The
wrapper is the only place the engine touches `Executions`, so the number
of user-function invocations is exactly the recursion depth `n`. -/
def invokeAttempts {R : Type} (fn : ExecState R → R × Option GoError) :
    Nat → ExecState R → ExecState R
  | 0, s => s
  | n + 1, s => invokeAttempts fn n (outerFn fn s).1

/-! ## Timeout policy layer (`timeout/timeoutexecutor.go`)

`timeoutExecutor.Apply` races a one-shot timer against the inner
function.  Both the timer callback and the inline return path attempt a
compare-and-swap on an initially-nil atomic result slot.  The atomic
operations are modelled explicitly; a `RaceSchedule` fixes the
interleaving of the two atomic writers (the CAS itself is atomic, so
every real execution linearizes to one of the three schedules). -/

/-- `atomic.Pointer.CompareAndSwap(nil, new)`: succeeds and stores iff
the slot still holds nil. -/
def cas {α : Type} (slot : Option α) (new : α) : Option α × Bool :=
  match slot with
  | none => (some new, true)
  | some old => (some old, false)

/-- Modelled from the spec: `internal.FailureResult[R](err)` builds the
synthesized failure `{Err: err, Complete: true, Success: false,
SuccessAll: false}` with a zero-value `Result` (the internal package is
outside `src/`). -/
def FailureResult (R : Type) [Inhabited R] (e : GoError) : ExecutionResult R :=
  { result := default, err := some e, complete := true, success := false,
    successAll := false }

/-- `timeoutExecutor.IsFailure(result)`:
`result.Error != nil && errors.Is(result.Error, ErrTimeoutExceeded)`. -/
def timeoutIsFailure {R : Type} (r : ExecutionResult R) : Bool :=
  match r.err with
  | none => false
  | some e => errorsIs e ErrTimeoutExceeded

/-- Modelled from the spec: `BasePolicyExecutor.PostExecute` (spi
package, outside `src/`) — when the policy's `IsFailure` classifies the
result a failure it clears the layer's `Success` verdict and
`SuccessAll`; `Result`/`Err` are left untouched.  Instantiated here with
the Timeout policy's classifier. -/
def PostExecute {R : Type} (r : ExecutionResult R) : ExecutionResult R :=
  if timeoutIsFailure r then { r with success := false, successAll := false }
  else r

/-- Observable state of one `timeoutExecutor.Apply` invocation: the
atomic result slot, the execution's cancellation state, the argument
pairs of `Cancel` calls made by the timer callback, how many times
`onTimeoutExceeded` fired, and whether `timer.Stop()` was called. -/
structure TimeoutRaceState (R : Type) where
  slot : Option (ExecutionResult R)
  cancelState : CancelState R
  cancelCalls : List (Int × ExecutionResult R)
  listenerFires : Nat
  timerStopped : Bool
deriving DecidableEq, Repr

/-- The timer callback (`time.AfterFunc` body): build the synthesized
timeout failure, attempt `CAS(nil → timeoutResult)`; on success call
`execInternal.Cancel(e.PolicyIndex, timeoutResult)` and fire the
`onTimeoutExceeded` listener if configured; on failure do nothing
further. -/
def timerCallbackRun {R : Type} [Inhabited R] (pk : Int) (hasListener : Bool)
    (st : TimeoutRaceState R) : TimeoutRaceState R :=
  let timeoutRes := FailureResult R ErrTimeoutExceeded
  let (slot, ok) := cas st.slot timeoutRes
  if ok then
    { st with
      slot := slot
      cancelState := (Cancel st.cancelState pk timeoutRes).1
      cancelCalls := st.cancelCalls ++ [(pk, timeoutRes)]
      listenerFires := st.listenerFires + (if hasListener then 1 else 0) }
  else { st with slot := slot }

/-- The inline return path: attempt `CAS(nil → innerFn(exec))`; on
success call `timer.Stop()`. -/
def inlineReturnRun {R : Type} (inner : ExecutionResult R)
    (st : TimeoutRaceState R) : TimeoutRaceState R :=
  let (slot, ok) := cas st.slot inner
  if ok then { st with slot := slot, timerStopped := true }
  else { st with slot := slot }

/-- Interleavings of the two atomic writers: the timer's CAS lands
before the inline CAS, or the inline CAS lands first and the (stopped)
timer either never fires or fires stale afterwards. -/
inductive RaceSchedule where
  | timerFirst
  | innerFirst (staleTimerFires : Bool)
deriving DecidableEq, Repr

/-- One run of the function returned by `timeoutExecutor.Apply`, under a
given interleaving: the slot starts nil; the events of the schedule run;
the layer returns `PostExecute` of `result.Load()` (modelled as mapping
`PostExecute` over the loaded pointer, `none` = nil). -/
def timeoutApply {R : Type} [Inhabited R] (pk : Int) (hasListener : Bool)
    (cs0 : CancelState R) (inner : ExecutionResult R) (sched : RaceSchedule) :
    TimeoutRaceState R × Option (ExecutionResult R) :=
  let st0 : TimeoutRaceState R :=
    { slot := none, cancelState := cs0, cancelCalls := [],
      listenerFires := 0, timerStopped := false }
  let st :=
    match sched with
    | .timerFirst => inlineReturnRun inner (timerCallbackRun pk hasListener st0)
    | .innerFirst false => inlineReturnRun inner st0
    | .innerFirst true =>
        timerCallbackRun pk hasListener (inlineReturnRun inner st0)
  (st, st.slot.map PostExecute)

/-! ## Helper lemmas -/

/-- `errors.Is` decides exactly the is-or-wraps relation. -/
theorem errorsIs_eq_true_iff (e t : GoError) :
    errorsIs e t = true ↔ IsOrWraps e t := by
  induction e with
  | base m =>
      rw [errorsIs]
      simp only [Bool.or_eq_true, decide_eq_true_eq]
      constructor
      · rintro (rfl | h)
        · exact .refl _
        · cases h
      · intro h
        cases h
        exact Or.inl rfl
  | wrap m inner ih =>
      rw [errorsIs]
      simp only [Bool.or_eq_true, decide_eq_true_eq]
      constructor
      · rintro (rfl | h)
        · exact .refl _
        · exact .wrapStep _ _ _ (ih.mp h)
      · intro h
        cases h with
        | refl => exact Or.inl rfl
        | wrapStep _ _ _ h' => exact Or.inr (ih.mpr h')

/-- The attempt wrapper increments `Executions` exactly once per call. -/
theorem outerFn_executions {R : Type} (fn : ExecState R → R × Option GoError)
    (s : ExecState R) : (outerFn fn s).1.executions = s.executions + 1 := by
  rw [outerFn]
  cases fn s with
  | mk result err => rfl

/-- The `(i, policyIndex)` call trace of the composition loop, in closed
form. -/
theorem composeLoopAux_calls {F : Type} (apply : Nat → Nat → F → F)
    (i : Nat) :
    ∀ (pk : Nat) (t : ComposeTrace F),
      (composeLoopAux apply i pk t).calls =
        t.calls ++ (List.range i).map (fun k => (i - 1 - k, pk + k)) := by
  induction i with
  | zero => intro pk t; simp [composeLoopAux]
  | succ i ih =>
      intro pk t
      rw [composeLoopAux, ih]
      rw [List.range_succ_eq_map, List.map_cons, List.map_map]
      simp only [List.append_assoc, List.singleton_append, Nat.add_sub_cancel,
        Nat.sub_zero, Nat.add_zero]
      refine congrArg (t.calls ++ ·) (congrArg ((i, pk) :: ·) ?_)
      apply List.map_congr_left
      intro k _
      simp only [Function.comp_apply, Prod.mk.injEq]
      omega

/-! ## Claim theorems -/

/-- Claim C4 (confirmed): for an execution that completes without a
panic, `dispatchListeners` fires the success listener iff it is
registered and `SuccessAll` holds, the failure listener iff it is
registered and `SuccessAll` fails, never both; the complete listener
fires iff registered, and always last. -/
theorem listener_dispatch_correct :
    ∀ hS hF hC sAll : Bool,
      (ListenerKind.success ∈ dispatchListeners hS hF hC sAll ↔
        hS = true ∧ sAll = true) ∧
      (ListenerKind.failure ∈ dispatchListeners hS hF hC sAll ↔
        hF = true ∧ sAll = false) ∧
      (ListenerKind.complete ∈ dispatchListeners hS hF hC sAll ↔
        hC = true) ∧
      ¬(ListenerKind.success ∈ dispatchListeners hS hF hC sAll ∧
        ListenerKind.failure ∈ dispatchListeners hS hF hC sAll) ∧
      ((dispatchListeners hS hF hC sAll).getLast? = some ListenerKind.complete ∨
        hC = false) := by
  decide

/-- Claim C5 (confirmed): composing `A` then `B` then `C` one at a time,
or passing them all to `With`, or mixing, yields executors with the same
ordered policy list `[A, B, C]` and identical remaining state, hence
identical behaviour on every execution. -/
theorem compose_associative {P C L : Type} (a b c : P) :
    (Compose (Compose (With P C L a []) b).2 c).2 = With P C L a [b, c] ∧
    (Compose (With P C L a [b]) c).2 = With P C L a [b, c] ∧
    (With P C L a [b, c]).policies = [a, b, c] := by
  refine ⟨?_, ?_, rfl⟩ <;> simp [With, Compose]

/-- Claim C8 (confirmed): the Timeout policy's `IsFailure(result)`
returns true iff the result's error is non-nil and is, or wraps, the
sentinel `ErrTimeoutExceeded`. -/
theorem timeout_isFailure_iff {R : Type} (r : ExecutionResult R) :
    timeoutIsFailure r = true ↔
      ∃ e, r.err = some e ∧ IsOrWraps e ErrTimeoutExceeded := by
  cases h : r.err with
  | none => simp [timeoutIsFailure, h]
  | some e => simp [timeoutIsFailure, h, errorsIs_eq_true_iff]

/-- Claim C9 (confirmed): the attempt wrapper increments `Executions`
exactly once per invocation of the user function, so after any number
`n` of wrapper invocations (however the policies drive them)
`Executions` equals its initial value plus `n`; started from a fresh
execution (`Executions = 0`) it equals the number of invocations. -/
theorem executions_counts_invocations {R : Type}
    (fn : ExecState R → R × Option GoError) (n : Nat) (s : ExecState R) :
    (invokeAttempts fn n s).executions = s.executions + n ∧
    (outerFn fn s).1.executions = s.executions + 1 := by
  refine ⟨?_, outerFn_executions fn s⟩
  induction n generalizing s with
  | zero => simp [invokeAttempts]
  | succ n ih =>
      rw [invokeAttempts, ih, outerFn_executions]
      omega

/-- Claim C10 (confirmed): in every interleaving of the Timeout layer's
two atomic writers, the slot loaded after the inline compare-and-swap is
non-nil — if the inline CAS failed, the timer callback had already
stored its non-nil synthesized result — so the value passed to
`PostExecute` (and the value `Apply` returns) is never nil. -/
theorem timeout_adopted_result_nonnil {R : Type} [Inhabited R] (pk : Int)
    (hl : Bool) (cs : CancelState R) (inner : ExecutionResult R)
    (sched : RaceSchedule) :
    ((timeoutApply pk hl cs inner sched).1.slot).isSome = true ∧
    ((timeoutApply pk hl cs inner sched).2).isSome = true := by
  cases sched with
  | timerFirst =>
      simp [timeoutApply, timerCallbackRun, inlineReturnRun, cas]
  | innerFirst stale =>
      cases stale <;>
        simp [timeoutApply, timerCallbackRun, inlineReturnRun, cas]

/-- Claim C1 (counterexample): with two policies, the composition loop's
`ToExecutor` calls are `[(1, 0), (0, 1)]` — the outermost policy (list
position `0`) receives policy index `1`, not `0`; index `0` goes to the
innermost policy.  This refutes "index 0 assigned to the outermost
policy". -/
theorem compose_index_zero_not_outermost :
    (composeLoop (fun _ _ _ => ()) 2 ()).calls = [(1, 0), (0, 1)] ∧
    (0, 0) ∉ (composeLoop (fun _ _ _ => ()) 2 ()).calls := by
  decide

/-- Claim C1 (amended): for an `n`-policy executor the composition loop
passes exactly the contiguous policy indices `0 … n-1` to `ToExecutor`
(second components of the call trace are `List.range n`), but with index
`0` assigned to the **innermost** policy: list position `i` receives
index `n - 1 - i`, so smaller index = more inner. -/
theorem compose_indices_contiguous_innermost_zero {F : Type}
    (apply : Nat → Nat → F → F) (n : Nat) (f0 : F) :
    (composeLoop apply n f0).calls =
      (List.range n).map (fun k => (n - 1 - k, k)) ∧
    (composeLoop apply n f0).calls.map Prod.snd = List.range n := by
  have h : (composeLoop apply n f0).calls =
      (List.range n).map (fun k => (n - 1 - k, k)) := by
    rw [composeLoop, composeLoopAux_calls]
    simp
  refine ⟨h, ?_⟩
  rw [h, List.map_map]
  have hsnd : (Prod.snd ∘ fun k : Nat => (n - 1 - k, k)) = id := rfl
  rw [hsnd, List.map_id]

/-- Claim C2 (counterexample): model `Cancel` and the spec's
`IsCanceledForPolicy` formula (`canceledIndex ≥ 0 ∧ canceledIndex ≤ k`)
verbatim.  After the external-context cancellation `Cancel(MAX_INT, …)`
a cancellation has occurred (`canceledIndex ≥ 0`), yet
`IsCanceledForPolicy(0)` evaluates to `false` — contradicting the
claim's "returns true for every policy index k". -/
theorem external_cancel_not_canceled_for_policy_zero :
    IsCanceledForPolicy
        ((Cancel (freshCancelState Nat) maxInt
          (contextCancelResult Nat (GoError.base "context canceled"))).1) 0 =
      false ∧
    0 ≤ ((Cancel (freshCancelState Nat) maxInt
          (contextCancelResult Nat (GoError.base "context canceled"))).1).canceledIndex := by
  decide

/-- Claim C2 (amended): with the comparison direction matching the
composition loop's index convention (index 0 innermost, larger = more
outer, `MAX_INT` = external), the indexed check returns `true` iff a
cancellation has occurred and `canceledIndex ≥ k`: before any `Cancel`
it is `false` for every `k`; after `Cancel(j, r)` on a fresh execution
with `j ≥ 0` it is `true` exactly for `k ≤ j`; after the external
`Cancel(MAX_INT, r)` it is `true` for every representable policy index
`k ≤ MAX_INT`. -/
theorem isCanceledForPolicy_fixed_correct {R : Type} (r : ExecutionResult R)
    (j k : Int) (hj : 0 ≤ j) :
    IsCanceledForPolicyFixed (freshCancelState R) k = false ∧
    (IsCanceledForPolicyFixed ((Cancel (freshCancelState R) j r).1) k = true ↔
      k ≤ j) ∧
    (k ≤ maxInt →
      IsCanceledForPolicyFixed
        ((Cancel (freshCancelState R) maxInt r).1) k = true) := by
  refine ⟨?_, ?_, ?_⟩
  · simp [IsCanceledForPolicyFixed, freshCancelState]
  · simp [IsCanceledForPolicyFixed, Cancel, freshCancelState, hj]
  · intro hk
    simp only [IsCanceledForPolicyFixed, Cancel, freshCancelState]
    norm_num [maxInt] at hk ⊢
    exact hk

/-- Witness for the amended C2 theorem at concrete inputs: after
`Cancel(3, r)` index `2` is canceled, and after the external
`Cancel(MAX_INT, r)` index `2` is canceled. -/
theorem isCanceledForPolicy_fixed_correct_witness :
    IsCanceledForPolicyFixed
        ((Cancel (freshCancelState Nat) 3
          (contextCancelResult Nat (GoError.base "e"))).1) 2 = true ∧
    IsCanceledForPolicyFixed
        ((Cancel (freshCancelState Nat) maxInt
          (contextCancelResult Nat (GoError.base "e"))).1) 2 = true :=
  ⟨((isCanceledForPolicy_fixed_correct
      (contextCancelResult Nat (GoError.base "e")) 3 2 (by decide)).2.1).mpr
      (by decide),
   (isCanceledForPolicy_fixed_correct
      (contextCancelResult Nat (GoError.base "e")) maxInt 2 (by decide)).2.2
      (by decide)⟩

/-- Claim C3 (counterexample): `Compose` and the listener setters mutate
the receiver in place — after `Compose` (or `OnComplete`) returns, the
receiver's state differs from its state before the call, refuting
"every mutator method returns a copy, leaving the receiver unchanged". -/
theorem compose_mutates_receiver :
    (Compose (With Nat Nat Nat 0 []) 1).1 ≠ With Nat Nat Nat 0 [] ∧
    (OnComplete (With Nat Nat Nat 0 []) 5).1 ≠ With Nat Nat Nat 0 [] := by
  decide

/-- Claim C3 (amended): only `WithContext` is copy-on-write — it leaves
the receiver unchanged and returns a copy with the context set.
`Compose` appends to the receiver's own policy list and returns that
same mutated executor, and each listener setter overwrites the
receiver's single slot of its kind and returns the same mutated
executor. -/
theorem executor_mutator_semantics {P C L : Type} (e : ExecutorState P C L)
    (p : P) (c : C) (l : L) :
    (WithContext e c).1 = e ∧
    (WithContext e c).2 = { e with ctx := some c } ∧
    (Compose e p).1 = (Compose e p).2 ∧
    (Compose e p).1 = { e with policies := e.policies ++ [p] } ∧
    (OnComplete e l).1 = (OnComplete e l).2 ∧
    (OnComplete e l).1 = { e with onComplete := some l } ∧
    (OnSuccess e l).1 = (OnSuccess e l).2 ∧
    (OnSuccess e l).1 = { e with onSuccess := some l } ∧
    (OnFailure e l).1 = (OnFailure e l).2 ∧
    (OnFailure e l).1 = { e with onFailure := some l } := by
  repeat constructor

/-- Claim C6 (confirmed): when the attached context's done channel fires
first, the watcher calls `Cancel` with policy index `MAX_INT` and a
result whose `Err` is exactly the context's error and whose `Complete`
field is `true` (remaining fields take Go zero values). -/
theorem watcher_cancels_with_maxint {R : Type} [Inhabited R]
    (ctxErr : GoError) (s : CancelState R) :
    (watcherBody ctxErr true s).2 =
      some (maxInt, contextCancelResult R ctxErr) ∧
    (contextCancelResult R ctxErr).err = some ctxErr ∧
    (contextCancelResult R ctxErr).complete = true ∧
    (watcherBody ctxErr false s).2 = none := by
  refine ⟨rfl, rfl, rfl, rfl⟩

/-- Claim C7 (confirmed): across every interleaving of the timer
callback and the inline return path, the slot holds the first CAS
winner's result and the later result is discarded; the layer returns
`PostExecute` of that winner.  When the timer wins it calls
`Cancel(policyIndex, synthesized timeout failure)` and fires
`onTimeoutExceeded` exactly once (if configured); when the inner
function wins, `timer.Stop()` is called and a stale timer callback
changes nothing. -/
theorem timeout_race_first_winner {R : Type} [Inhabited R] (pk : Int)
    (hl : Bool) (cs : CancelState R) (inner : ExecutionResult R)
    (sched : RaceSchedule) :
    (timeoutApply pk hl cs inner sched).1.slot =
      some (match sched with
        | .timerFirst => FailureResult R ErrTimeoutExceeded
        | .innerFirst _ => inner) ∧
    (timeoutApply pk hl cs inner sched).2 =
      some (PostExecute (match sched with
        | .timerFirst => FailureResult R ErrTimeoutExceeded
        | .innerFirst _ => inner)) ∧
    (timeoutApply pk hl cs inner sched).1.cancelCalls =
      (match sched with
        | .timerFirst => [(pk, FailureResult R ErrTimeoutExceeded)]
        | .innerFirst _ => []) ∧
    (timeoutApply pk hl cs inner sched).1.listenerFires =
      (match sched with
        | .timerFirst => if hl then 1 else 0
        | .innerFirst _ => 0) ∧
    (timeoutApply pk hl cs inner sched).1.timerStopped =
      (match sched with
        | .timerFirst => false
        | .innerFirst _ => true) := by
  cases sched with
  | timerFirst =>
      simp [timeoutApply, timerCallbackRun, inlineReturnRun, cas]
  | innerFirst stale =>
      cases stale <;>
        simp [timeoutApply, timerCallbackRun, inlineReturnRun, cas]

end FailsafeGo
